import Mathlib

/-!
Verification of the input-normalization pipeline of `typst2ansi`
(`src/main.rs`): the fenced-codeblock unwrapper `unwrap_codeblock`
and the ordering contract of `main`'s pipeline.

Strings are modelled as `List Char` (the source only ever slices at
character boundaries of single-byte characters in the relevant paths,
so char indices coincide with the source's byte indices on the inputs
of interest). A Rust panic (out-of-bounds slice) is modelled as `none`.
-/

/-- The backtick character, `U+0060`. -/
def bt : Char := Char.ofNat 96

/-- Model of Rust `char::is_whitespace`: the Unicode `White_Space` property. -/
def rustIsWhitespace (c : Char) : Bool :=
  c.toNat = 0x09 || c.toNat = 0x0A || c.toNat = 0x0B || c.toNat = 0x0C ||
  c.toNat = 0x0D || c.toNat = 0x20 || c.toNat = 0x85 || c.toNat = 0xA0 ||
  c.toNat = 0x1680 || (0x2000 ≤ c.toNat && c.toNat ≤ 0x200A) ||
  c.toNat = 0x2028 || c.toNat = 0x2029 || c.toNat = 0x202F ||
  c.toNat = 0x205F || c.toNat = 0x3000

/-- Model of `input.find('\n')`: index of the first newline, if any. -/
def findNL : List Char → Option Nat
  | [] => none
  | c :: cs => if c = '\n' then some 0 else (findNL cs).map (· + 1)

/-- Model of the Rust slice `&input[a..b]`.  `none` models the panic raised
when the range is invalid (`a > b` or `b > input.len()`). -/
def rustSlice (l : List Char) (a b : Nat) : Option (List Char) :=
  if a ≤ b ∧ b ≤ l.length then some ((l.take b).drop a) else none

/-- The opening fence literal, three backticks. -/
def fence : List Char := "```".toList

/-- The closing forms, in the order the source's `for` loop checks them:
`"```"`, `"```\n"`, `"```\r\n"`. -/
def closings : List (List Char) := ["```".toList, "```\n".toList, "```\r\n".toList]

/-- Model of the loop `for end in [...] { if input.ends_with(end) { return
&input[(line_end + 1)..input.len() - end.len()]; } }`, falling through to
`input` when no candidate suffix matches. -/
def matchEnds (input : List Char) (line_end : Nat) : List (List Char) → Option (List Char)
  | [] => some input
  | e :: rest =>
    if e <:+ input then rustSlice input (line_end + 1) (input.length - e.length)
    else matchEnds input line_end rest

/-- Body of `unwrap_codeblock` once the first newline has been found at
`line_end`: check `input.starts_with("```")`, slice the language tag
`input[3..line_end]`, require it whitespace-free, then try the closing
forms. -/
def unwrapWithLineEnd (input : List Char) (line_end : Nat) : Option (List Char) :=
  if fence <+: input then
    match rustSlice input 3 line_end with
    | none => none
    | some tag =>
      if ∀ c ∈ tag, rustIsWhitespace c = false then matchEnds input line_end closings
      else some input
  else some input

/-- Model of `fn unwrap_codeblock(input: &str) -> &str` (src/main.rs,
lines 118-133).  `none` models a panic. -/
def unwrap_codeblock (input : List Char) : Option (List Char) :=
  match findNL input with
  | none => some input
  | some line_end => unwrapWithLineEnd input line_end

/-- Model of `main`'s normalization pipeline (src/main.rs, lines 91-100):
unwrap the codeblock if `unwrap_flag` is set, then apply the escape
stripper `strip` if `strip_flag` is set; the result is what is handed to
the highlighter.  The stripper itself is an external collaborator, so it
is a parameter. -/
def normalize_pipeline (strip : List Char → List Char) (unwrap_flag strip_flag : Bool)
    (input : List Char) : Option (List Char) :=
  match (if unwrap_flag then unwrap_codeblock input else some input) with
  | none => none
  | some stripped => some (if strip_flag then strip stripped else stripped)

/-- Modelled from the spec's words ("treat the three forms as checked in
order of decreasing length and accept the first match"): the closing forms
sorted by decreasing length. -/
def closingsLongestFirst : List (List Char) :=
  ["```\r\n".toList, "```\n".toList, "```".toList]

/-- The unwrapper as the spec words it: identical to `unwrap_codeblock`
except that the closing forms are tried longest first. -/
def unwrap_codeblock_longest (input : List Char) : Option (List Char) :=
  match findNL input with
  | none => some input
  | some line_end =>
    if fence <+: input then
      match rustSlice input 3 line_end with
      | none => none
      | some tag =>
        if ∀ c ∈ tag, rustIsWhitespace c = false then
          matchEnds input line_end closingsLongestFirst
        else some input
    else some input

theorem findNL_eq_none {t : List Char} (h : '\n' ∉ t) : findNL t = none := by
  induction t with
  | nil => rfl
  | cons c cs ih =>
    have hc : ¬ c = '\n' := fun hc => h (hc ▸ List.mem_cons_self c cs)
    have hcs : '\n' ∉ cs := fun hm => h (List.mem_cons_of_mem c hm)
    simp [findNL, hc, ih hcs]

theorem findNL_lt_length {t : List Char} {n : Nat} (h : findNL t = some n) :
    n < t.length := by
  induction t generalizing n with
  | nil => simp [findNL] at h
  | cons c cs ih =>
    simp only [findNL] at h
    split at h
    · cases h
      simp
    · rw [Option.map_eq_some'] at h
      obtain ⟨m, hm, rfl⟩ := h
      have := ih hm
      simp only [List.length_cons]
      omega

theorem findNL_fence_append (r : List Char) :
    findNL (fence ++ r) = (findNL r).map (· + 3) := by
  have hb : ¬ (bt = '\n') := by decide
  show findNL (bt :: bt :: bt :: r) = (findNL r).map (· + 3)
  simp only [findNL, if_neg hb]
  cases findNL r <;> simp

theorem fence_findNL_ge3 {t : List Char} {n : Nat} (hf : fence <+: t)
    (hn : findNL t = some n) : 3 ≤ n := by
  obtain ⟨r, rfl⟩ := hf
  rw [findNL_fence_append] at hn
  rw [Option.map_eq_some'] at hn
  obtain ⟨m, _, rfl⟩ := hn
  omega

theorem closings_suffix_unique {t e₁ e₂ : List Char} (h₁ : e₁ ∈ closings)
    (h₂ : e₂ ∈ closings) (hs₁ : e₁ <:+ t) (hs₂ : e₂ <:+ t) : e₁ = e₂ := by
  have key : ∀ a b : List Char, a ∈ closings → b ∈ closings →
      a <:+ t → b <:+ t → a.length ≤ b.length → a = b := by
    intro a b ha hb hat hbt hab
    have hsub : a <:+ b := List.suffix_of_suffix_length_le hat hbt hab
    simp only [closings, List.mem_cons, List.not_mem_nil, or_false] at ha hb
    rcases ha with rfl | rfl | rfl <;> rcases hb with rfl | rfl | rfl <;>
      first
        | rfl
        | (exact absurd hsub (by decide))
  rcases Nat.le_total e₁.length e₂.length with hle | hle
  · exact key e₁ e₂ h₁ h₂ hs₁ hs₂ hle
  · exact (key e₂ e₁ h₂ h₁ hs₂ hs₁ hle).symm

theorem matchEnds_of_mem_closings (t : List Char) (n : Nat) {e : List Char}
    (he : e ∈ closings) (hs : e <:+ t) :
    matchEnds t n closings = rustSlice t (n + 1) (t.length - e.length) := by
  have huniq : ∀ d ∈ closings, d <:+ t → d = e := fun d hd hdt =>
    closings_suffix_unique hd he hdt hs
  have hec := he
  simp only [closings, List.mem_cons, List.not_mem_nil, or_false] at hec
  rcases hec with rfl | rfl | rfl
  · simp only [closings, matchEnds, if_pos hs]
  · have h1 : ¬ ("```".toList <:+ t) := fun h =>
      absurd (huniq _ (by simp [closings]) h) (by decide)
    simp only [closings, matchEnds, if_neg h1, if_pos hs]
  · have h1 : ¬ ("```".toList <:+ t) := fun h =>
      absurd (huniq _ (by simp [closings]) h) (by decide)
    have h2 : ¬ ("```\n".toList <:+ t) := fun h =>
      absurd (huniq _ (by simp [closings]) h) (by decide)
    simp only [closings, matchEnds, if_neg h1, if_neg h2, if_pos hs]

theorem matchEnds_of_no_suffix (t : List Char) (n : Nat) (L : List (List Char))
    (h : ∀ e ∈ L, ¬ e <:+ t) : matchEnds t n L = some t := by
  induction L with
  | nil => rfl
  | cons e rest ih =>
    have he : ¬ e <:+ t := h e (List.mem_cons_self e rest)
    simp only [matchEnds, if_neg he]
    exact ih fun x hx => h x (List.mem_cons_of_mem e hx)

theorem unwrap_of_not_fence {t : List Char} (h : ¬ fence <+: t) :
    unwrap_codeblock t = some t := by
  unfold unwrap_codeblock
  cases hn : findNL t with
  | none => rfl
  | some n => simp [unwrapWithLineEnd, if_neg h]

theorem unwrap_eq_of_closing {t : List Char} {n : Nat} {e : List Char}
    (hf : fence <+: t) (hn : findNL t = some n)
    (hw : ∀ c ∈ (t.take n).drop 3, rustIsWhitespace c = false)
    (he : e ∈ closings) (hs : e <:+ t) :
    unwrap_codeblock t = rustSlice t (n + 1) (t.length - e.length) := by
  have h3 : 3 ≤ n := fence_findNL_ge3 hf hn
  have hlen : n < t.length := findNL_lt_length hn
  have hslice : rustSlice t 3 n = some ((t.take n).drop 3) := by
    simp [rustSlice, h3, Nat.le_of_lt hlen]
  simp only [unwrap_codeblock, hn]
  simp only [unwrapWithLineEnd, if_pos hf, hslice, if_pos hw]
  exact matchEnds_of_mem_closings t n he hs

theorem unwrap_of_whitespace_tag {t : List Char} {n : Nat}
    (hf : fence <+: t) (hn : findNL t = some n) {c : Char}
    (hc : c ∈ (t.take n).drop 3) (hwc : rustIsWhitespace c = true) :
    unwrap_codeblock t = some t := by
  have h3 : 3 ≤ n := fence_findNL_ge3 hf hn
  have hlen : n < t.length := findNL_lt_length hn
  have hslice : rustSlice t 3 n = some ((t.take n).drop 3) := by
    simp [rustSlice, h3, Nat.le_of_lt hlen]
  have hnw : ¬ (∀ d ∈ (t.take n).drop 3, rustIsWhitespace d = false) := by
    intro hall
    have := hall c hc
    simp [hwc] at this
  simp only [unwrap_codeblock, hn]
  simp only [unwrapWithLineEnd, if_pos hf, hslice, if_neg hnw]

theorem unwrap_of_no_closing {t : List Char}
    (h : ∀ e ∈ closings, ¬ e <:+ t) : unwrap_codeblock t = some t := by
  by_cases hf : fence <+: t
  · cases hn : findNL t with
    | none => simp [unwrap_codeblock, hn]
    | some n =>
      have h3 : 3 ≤ n := fence_findNL_ge3 hf hn
      have hlen : n < t.length := findNL_lt_length hn
      have hslice : rustSlice t 3 n = some ((t.take n).drop 3) := by
        simp [rustSlice, h3, Nat.le_of_lt hlen]
      simp only [unwrap_codeblock, hn]
      simp only [unwrapWithLineEnd, if_pos hf, hslice]
      by_cases hw : ∀ c ∈ (t.take n).drop 3, rustIsWhitespace c = false
      · rw [if_pos hw]
        exact matchEnds_of_no_suffix t n closings h
      · rw [if_neg hw]
  · exact unwrap_of_not_fence hf

theorem matchEnds_closings_comm (t : List Char) (n : Nat) :
    matchEnds t n closings = matchEnds t n closingsLongestFirst := by
  by_cases h1 : ("```".toList <:+ t) <;>
    by_cases h2 : ("```\n".toList <:+ t) <;>
      by_cases h3 : ("```\r\n".toList <:+ t)
  · exact absurd (closings_suffix_unique (by decide) (by decide) h1 h2) (by decide)
  · exact absurd (closings_suffix_unique (by decide) (by decide) h1 h2) (by decide)
  · exact absurd (closings_suffix_unique (by decide) (by decide) h1 h3) (by decide)
  · simp only [matchEnds, closings, closingsLongestFirst, if_pos h1, if_neg h2, if_neg h3]
  · exact absurd (closings_suffix_unique (by decide) (by decide) h2 h3) (by decide)
  · simp only [matchEnds, closings, closingsLongestFirst, if_neg h1, if_pos h2, if_neg h3]
  · simp only [matchEnds, closings, closingsLongestFirst, if_neg h1, if_neg h2, if_pos h3]
  · simp only [matchEnds, closings, closingsLongestFirst, if_neg h1, if_neg h2, if_neg h3]

/-- Claim C1: the spec asserts the Codeblock Unwrapper is a total function
that never crosses buffer bounds — it must validate that the opening
fence's first-line end and the closing fence's tail exist and do not
overlap before slicing.  The code omits the overlap check: on the input
`"```\n"` the matched closing form is `"```\n"` itself, so the slice
`&input[4..0]` is attempted and the program panics (modelled as `none`).
This theorem evaluates the embedded code at that failing input. -/
theorem unwrap_codeblock_panics_on_overlapping_fence :
    unwrap_codeblock ("```\n".toList) = none := by decide

/-- Claim C2: with `unwrap_codeblock = true` and `strip_ansi = true` the
text forwarded to the highlighter is `strip (unwrap t)` — unwrap first,
then strip — for every stripper and every input; and this order is
observably different from `unwrap (strip t)`: for the stripper that
removes ESC bytes and an input whose opening fence is interrupted by an
ESC byte, the two orders disagree. -/
theorem pipeline_strips_after_unwrapping :
    (∀ (strip : List Char → List Char) (t : List Char),
        normalize_pipeline strip true true t = (unwrap_codeblock t).map strip) ∧
    (∃ (strip : List Char → List Char) (t : List Char),
        (unwrap_codeblock t).map strip ≠ unwrap_codeblock (strip t)) := by
  constructor
  · intro strip t
    unfold normalize_pipeline
    cases h : unwrap_codeblock t <;> simp [h]
  · exact ⟨fun l => l.filter (fun c => c != '\x1b'),
      ("`\x1b``rs\nfoo\n```").toList, by decide⟩

/-- Claim C3 counterexample: on the input `"```abc```\n"` every hypothesis
of the claim holds — the text starts with the fence, the first line
carries only non-whitespace after it (first newline at index 9), and the
tail matches the closing form `"```\n"` — yet `unwrap_codeblock` does not
return any substring: it panics (`none`), because the closing fence
starts before the first line ends. -/
theorem unwrap_overlap_defeats_substring_claim :
    (fence <+: ("```abc```\n".toList)) ∧
    findNL ("```abc```\n".toList) = some 9 ∧
    (∀ c ∈ (("```abc```\n".toList).take 9).drop 3, rustIsWhitespace c = false) ∧
    ("```\n".toList <:+ ("```abc```\n".toList)) ∧
    unwrap_codeblock ("```abc```\n".toList) = none := by decide

/-- Claim C3 (amended): for every text `t` that starts with the fence
followed on the first line only by non-whitespace characters before the
first line break (at index `n`), whose tail matches a closing form `e`,
and in which the first line ends no later than the start of the matched
closing fence (`n + 1 ≤ length t - length e`), `unwrap_codeblock t` is the
substring strictly between the end of the first line (its terminator
excluded) and the start of the closing fence. -/
theorem unwrap_extracts_body_between_fences {t : List Char} {n : Nat}
    {e : List Char} (hf : fence <+: t) (hn : findNL t = some n)
    (hw : ∀ c ∈ (t.take n).drop 3, rustIsWhitespace c = false)
    (he : e ∈ closings) (hs : e <:+ t)
    (hov : n + 1 ≤ t.length - e.length) :
    unwrap_codeblock t = some ((t.take (t.length - e.length)).drop (n + 1)) := by
  rw [unwrap_eq_of_closing hf hn hw he hs]
  have hle : t.length - e.length ≤ t.length := Nat.sub_le _ _
  simp [rustSlice, hov, hle]

/-- Witness for the amended claim C3, scenario A of the spec:
`unwrap("```rs\nfoo\n```") = "foo\n"`. -/
theorem unwrap_extracts_body_between_fences_witness :
    (fence <+: ("```rs\nfoo\n```".toList)) ∧
    unwrap_codeblock ("```rs\nfoo\n```".toList) = some ("foo\n".toList) := by
  refine ⟨by decide, ?_⟩
  have h := unwrap_extracts_body_between_fences (t := "```rs\nfoo\n```".toList)
    (n := 5) (e := "```".toList) (by decide) (by decide) (by decide)
    (by decide) (by decide) (by decide)
  exact h.trans (by decide)

/-- Claim C4: the three closing forms are mutually exclusive as suffixes,
so the source's shortest-first loop returns the same result as the
spec's longest-first check — the unwrapper behaves exactly as if it
preferred the longest matching suffix; and, as in scenario B, the closing
line's trailing newline is consumed:
`unwrap("```rs\nfoo\n```\n") = "foo\n"`. -/
theorem unwrap_closing_matches_longest_suffix :
    (∀ t : List Char, unwrap_codeblock t = unwrap_codeblock_longest t) ∧
    unwrap_codeblock ("```rs\nfoo\n```\n".toList) = some ("foo\n".toList) := by
  constructor
  · intro t
    cases hn : findNL t with
    | none => simp only [unwrap_codeblock, unwrap_codeblock_longest, hn]
    | some n =>
      simp only [unwrap_codeblock, unwrap_codeblock_longest, hn]
      unfold unwrapWithLineEnd
      by_cases hf : fence <+: t
      · rw [if_pos hf, if_pos hf]
        cases hs : rustSlice t 3 n with
        | none => rfl
        | some tag =>
          dsimp only
          by_cases hw : ∀ c ∈ tag, rustIsWhitespace c = false
          · rw [if_pos hw, if_pos hw]
            exact matchEnds_closings_comm t n
          · rw [if_neg hw, if_neg hw]
      · rw [if_neg hf, if_neg hf]
  · decide

/-- Claim C5: any text that does not start with the three-backtick fence
is returned unchanged. -/
theorem unwrap_id_without_leading_fence {t : List Char}
    (h : ¬ fence <+: t) : unwrap_codeblock t = some t :=
  unwrap_of_not_fence h

/-- Witness for claim C5 at the input `"foo\n"`. -/
theorem unwrap_id_without_leading_fence_witness :
    ¬ (fence <+: ("foo\n".toList)) ∧
    unwrap_codeblock ("foo\n".toList) = some ("foo\n".toList) :=
  ⟨by decide, unwrap_id_without_leading_fence (by decide)⟩

/-- Claim C6: if any whitespace character occurs between the opening fence
and the first line break (`c` is a whitespace character of the slice
`t[3..n]`, `n` the index of the first newline), the match fails entirely
and the input is returned unchanged. -/
theorem unwrap_id_on_whitespace_in_first_line {t : List Char} {n : Nat}
    {c : Char} (hf : fence <+: t) (hn : findNL t = some n)
    (hc : c ∈ (t.take n).drop 3) (hw : rustIsWhitespace c = true) :
    unwrap_codeblock t = some t :=
  unwrap_of_whitespace_tag hf hn hc hw

/-- Witness for claim C6, scenario C of the spec: the input
`"``` rs\nfoo\n```"` (space in the tag) is returned unchanged. -/
theorem unwrap_id_on_whitespace_in_first_line_witness :
    (fence <+: ("``` rs\nfoo\n```".toList)) ∧
    unwrap_codeblock ("``` rs\nfoo\n```".toList)
      = some ("``` rs\nfoo\n```".toList) :=
  ⟨by decide, unwrap_id_on_whitespace_in_first_line (n := 6) (c := ' ')
    (by decide) (by decide) (by decide) (by decide)⟩

/-- Claim C7: if the tail of the text matches none of the three recognized
closing forms, the input is returned unchanged — even when a well-formed
opening fence is present. -/
theorem unwrap_id_without_closing_fence {t : List Char}
    (h : ∀ e ∈ closings, ¬ e <:+ t) : unwrap_codeblock t = some t :=
  unwrap_of_no_closing h

/-- Witness for claim C7, scenario D of the spec: an opening fence with no
closing fence is returned unchanged. -/
theorem unwrap_id_without_closing_fence_witness :
    (∀ e ∈ closings, ¬ e <:+ ("```rs\nfoo".toList)) ∧
    unwrap_codeblock ("```rs\nfoo".toList) = some ("```rs\nfoo".toList) :=
  ⟨by decide, unwrap_id_without_closing_fence (by decide)⟩

/-- Claim C8: text with no newline anywhere is returned unchanged, since
no well-formed first line can exist. -/
theorem unwrap_id_without_newline {t : List Char} (h : '\n' ∉ t) :
    unwrap_codeblock t = some t := by
  simp [unwrap_codeblock, findNL_eq_none h]

/-- Witness for claim C8 at the newline-free input `"```rs```"`. -/
theorem unwrap_id_without_newline_witness :
    '\n' ∉ ("```rs```".toList) ∧
    unwrap_codeblock ("```rs```".toList) = some ("```rs```".toList) :=
  ⟨by decide, unwrap_id_without_newline (by decide)⟩

/-- Claim C9 counterexample: `unwrap` is not idempotent.  For the nested
input `t = "```x\n```y\nz\n```\n```"` the first application yields the
inner codeblock `"```y\nz\n```\n"`, and a second application unwraps it
again to `"z\n"`, so `unwrap (unwrap t) ≠ unwrap t`. -/
theorem unwrap_not_idempotent_on_nested_codeblock :
    (unwrap_codeblock ("```x\n```y\nz\n```\n```".toList)).bind unwrap_codeblock
      ≠ unwrap_codeblock ("```x\n```y\nz\n```\n```".toList) := by decide

/-- Claim C9 (amended): a second application of `unwrap` is a no-op only
when the first result is not itself an unwrappable codeblock; in
particular, whenever the unwrapped result does not begin with the
three-backtick fence, `unwrap (unwrap t) = unwrap t`. -/
theorem unwrap_second_application_noop_without_fence {t u : List Char}
    (h : unwrap_codeblock t = some u) (hu : ¬ fence <+: u) :
    (unwrap_codeblock t).bind unwrap_codeblock = unwrap_codeblock t := by
  rw [h]
  show unwrap_codeblock u = some u
  exact unwrap_of_not_fence hu

/-- Witness for the amended claim C9 at scenario A's input, whose
unwrapped body `"foo\n"` carries no fence. -/
theorem unwrap_second_application_noop_without_fence_witness :
    unwrap_codeblock ("```rs\nfoo\n```".toList) = some ("foo\n".toList) ∧
    ¬ (fence <+: ("foo\n".toList)) ∧
    (unwrap_codeblock ("```rs\nfoo\n```".toList)).bind unwrap_codeblock
      = unwrap_codeblock ("```rs\nfoo\n```".toList) :=
  ⟨by decide, by decide,
    unwrap_second_application_noop_without_fence
      (t := "```rs\nfoo\n```".toList) (u := "foo\n".toList)
      (by decide) (by decide)⟩

/-- Claim C10: when the opening fence line is terminated by `"\r\n"` — the
character just before the first line feed (at index `n`) is a carriage
return — the carriage return lies in the language-tag slice and counts as
whitespace, so the input is returned unchanged. -/
theorem unwrap_id_on_crlf_first_line {t : List Char} {n : Nat}
    (hf : fence <+: t) (hn : findNL t = some n)
    (hr : t[n - 1]? = some '\r') :
    unwrap_codeblock t = some t := by
  have h3 : 3 ≤ n := fence_findNL_ge3 hf hn
  have hlen : n < t.length := findNL_lt_length hn
  have hne3 : n ≠ 3 := by
    rintro rfl
    obtain ⟨r, rfl⟩ := hf
    rw [List.getElem?_append_left (by decide)] at hr
    exact absurd hr (by decide)
  have hmem : '\r' ∈ (t.take n).drop 3 := by
    have hidx : ((t.take n).drop 3)[n - 4]? = some '\r' := by
      rw [List.getElem?_drop]
      have h34 : 3 + (n - 4) = n - 1 := by omega
      rw [h34, List.getElem?_take, if_pos (by omega)]
      exact hr
    exact List.getElem?_mem hidx
  exact unwrap_of_whitespace_tag hf hn hmem (by decide)

/-- Witness for claim C10 at the input `"```rs\r\nfoo\n```"`, whose first
line is CRLF-terminated: the input is returned unchanged. -/
theorem unwrap_id_on_crlf_first_line_witness :
    (fence <+: ("```rs\r\nfoo\n```".toList)) ∧
    ("```rs\r\nfoo\n```".toList)[5]? = some '\r' ∧
    unwrap_codeblock ("```rs\r\nfoo\n```".toList)
      = some ("```rs\r\nfoo\n```".toList) :=
  ⟨by decide, by decide,
    unwrap_id_on_crlf_first_line (n := 6) (by decide) (by decide) (by decide)⟩
